import Mathlib

/-!
Verification development for the IDOT bid-letting scraper
(src/scrape.py and src/api/scrape.py).

The two Python files share an HTML table/link extractor
(`SimpleHTMLParser`), a listing-page URL resolver
(`parse_repository_page`, which differs between the two files), a
detail-page field extractor (`scrape_contract_detail`), and an
orchestrator (`process_repository`).

HTML tokenization is performed by Python's stdlib `html.parser`
(not part of this repository), so the repository functions are
embedded over an explicit token stream (`Token`); a tokenizer
modelled from the spec is provided separately for the termination
claims.  Network fetches are embedded as an oracle
`String → Except String (List Token)` (URL to tokenized document or
error message), mirroring `fetch_url`, which either returns the
document or raises.
-/

/-- Boolean list-prefix test. -/
def isPrefixL (p l : List Char) : Bool :=
  match p, l with
  | [], _ => true
  | _ :: _, [] => false
  | a :: ps, b :: ls => a == b && isPrefixL ps ls

/-- Boolean list-infix test: `p` occurs contiguously in `l`. -/
def isInfixL (p l : List Char) : Bool :=
  match l with
  | [] => p.isEmpty
  | _ :: ls => isPrefixL p l || isInfixL p ls

/-- Python substring test `pat in hay` (str.__contains__). -/
def strContains (hay pat : String) : Bool :=
  isInfixL pat.toList hay.toList

/-- Python `str.lower()` (ASCII case folding suffices for this code). -/
def pyLower (s : String) : String :=
  String.mk (s.toList.map Char.toLower)

/-- Python `str.strip()`: remove leading and trailing whitespace. -/
def pyStrip (s : String) : String :=
  String.mk (((s.toList.dropWhile Char.isWhitespace).reverse.dropWhile Char.isWhitespace).reverse)

/-- Python `str.isdigit()`: nonempty and all digits. -/
def pyIsDigit (s : String) : Bool :=
  !s.toList.isEmpty && s.toList.all Char.isDigit

/-- The chain `cell.replace('.', '').replace(',', '').replace('$', '').replace(' ', '')`
from scrape.py line 180 (and 195): sequentially removing every occurrence of the
four single characters equals filtering them all out. -/
def stripMoneyChars (s : String) : String :=
  String.mk (s.toList.filter (fun c => c != '.' && c != ',' && c != '$' && c != ' '))

/-- Python `' '.join(row)`. -/
def joinSpace (row : List String) : String :=
  String.intercalate " " row

/-- Python truthiness fallback `a or b` for strings. -/
def pyOr (a b : String) : String :=
  if a == "" then b else a

/-- Structural markup events delivered by Python's `html.parser` to the
handler methods of `SimpleHTMLParser`: tag names (and attribute names)
arrive lower-cased, attribute values verbatim. -/
inductive Token where
  | startTag (name : String) (attrs : List (String × String))
  | endTag (name : String)
  | text (data : String)
deriving DecidableEq, Repr

/-- The mutable state of `SimpleHTMLParser` (src/scrape.py lines 34-43,
identical in src/api/scrape.py lines 29-38). -/
structure ParserState where
  tables : List (List (List String))
  current_table : List (List String)
  current_row : List String
  current_cell : String
  in_table : Bool
  in_row : Bool
  in_cell : Bool
  links : List String
deriving DecidableEq, Repr

def initState : ParserState :=
  { tables := [], current_table := [], current_row := [], current_cell := ""
  , in_table := false, in_row := false, in_cell := false, links := [] }

/-- `SimpleHTMLParser.handle_starttag` (src/scrape.py lines 45-59). -/
def handle_starttag (st : ParserState) (tag : String) (attrs : List (String × String)) : ParserState :=
  if tag == "table" then
    { st with in_table := true, current_table := [] }
  else if tag == "tr" && st.in_table then
    { st with in_row := true, current_row := [] }
  else if (tag == "td" || tag == "th") && st.in_row then
    { st with in_cell := true, current_cell := "" }
  else if tag == "a" && st.in_cell then
    { st with links := st.links ++ attrs.filterMap (fun p => if p.1 == "href" then some p.2 else none) }
  else st

/-- `SimpleHTMLParser.handle_endtag` (src/scrape.py lines 61-72).  Note that
on `</table>` the `current_table` buffer is appended when non-empty but is
never cleared, and `in_table` is not checked. -/
def handle_endtag (st : ParserState) (tag : String) : ParserState :=
  if tag == "table" then
    { st with in_table := false
            , tables := if st.current_table.isEmpty then st.tables else st.tables ++ [st.current_table] }
  else if tag == "tr" && st.in_row then
    { st with in_row := false
            , current_table := if st.current_row.isEmpty then st.current_table else st.current_table ++ [st.current_row] }
  else if (tag == "td" || tag == "th") && st.in_cell then
    { st with in_cell := false, current_row := st.current_row ++ [pyStrip st.current_cell] }
  else st

/-- `SimpleHTMLParser.handle_data` (src/scrape.py lines 74-76). -/
def handle_data (st : ParserState) (data : String) : ParserState :=
  if st.in_cell then { st with current_cell := st.current_cell ++ data } else st

/-- Dispatch one markup event to the corresponding handler. -/
def processToken (st : ParserState) (t : Token) : ParserState :=
  match t with
  | .startTag n a => handle_starttag st n a
  | .endTag n => handle_endtag st n
  | .text d => handle_data st d

/-- Run `SimpleHTMLParser` over a whole token stream (the effect of
`parser.feed(html_content)` on a fresh parser). -/
def feedTokens (ts : List Token) : ParserState :=
  ts.foldl processToken initState

/-- `VALID_COUNTIES` (src/scrape.py lines 19-22); the Python set is only
ever used for Boolean membership-style `any` scans, so iteration order is
irrelevant. -/
def VALID_COUNTIES : List String :=
  ["boone", "cook", "grundy", "dupage", "kane", "kendall", "lake", "mchenry", "will", "various"]

/-- `VALID_STATUSES` (src/scrape.py line 25). -/
def VALID_STATUSES : List String :=
  ["active", "executed", "awarded"]

/-- Keep the characters of a base URL up to and including its last slash. -/
def baseDir (l : List Char) : List Char :=
  ((l.reverse.dropWhile (fun c => c != '/')).reverse)

/-- Modelled from the spec: "resolve each against the document's base URL
using standard relative-URL resolution" — Python's stdlib
`urllib.parse.urljoin`, which is not part of this repository.  Simplified:
a link carrying a scheme (containing "://") is already absolute and is
returned unchanged; otherwise the link replaces everything after the last
slash of the base URL. -/
def urljoin (base link : String) : String :=
  if strContains link "://" then link
  else String.mk (baseDir base.toList) ++ link

/-- `parse_repository_page` of src/scrape.py (lines 101-151).  Only lines
143-151 determine the return value: the `contracts` list built in lines
112-141 is dead code (it is never returned and has no effect), so it is
omitted.  The function receives the token stream of the listing document
(tokenization itself is Python's stdlib html.parser). -/
def parse_repository_page (toks : List Token) (base_url : String) : List String :=
  (((feedTokens toks).links.filter (fun l => strContains l "LbContractDetail")).map
    (fun l => urljoin base_url l))

/-- Row filter of `parse_repository_page` in src/api/scrape.py
(lines 103-111): a row participates when it has at least 3 cells and its
space-joined lower-cased text contains some valid county and some valid
status as substrings. -/
def row_matches (row : List String) : Bool :=
  if row.length < 3 then false
  else
    let row_text := pyLower (joinSpace row)
    (VALID_COUNTIES.any (fun county => strContains row_text county)) &&
    (VALID_STATUSES.any (fun status => strContains row_text status))

/-- One link of the link pass of `parse_repository_page` in
src/api/scrape.py (lines 94-98): keep "LbContractDetail" links, resolve,
and de-duplicate preserving first-seen order. -/
def api_link_step (base_url : String) (acc : List String) (l : String) : List String :=
  if strContains l "LbContractDetail" then
    let full_url := urljoin base_url l
    if acc.contains full_url then acc else acc ++ [full_url]
  else acc

/-- Link pass of `parse_repository_page` in src/api/scrape.py
(lines 93-98). -/
def api_contract_urls (links : List String) (base_url : String) : List String :=
  links.foldl (api_link_step base_url) []

/-- One row of the correlation loop of src/api/scrape.py (lines 102-117):
state is (remaining URL queue, filtered output); a matching row pops the
queue head and appends it to the output when not already present. -/
def api_filter_step (st : List String × List String) (row : List String) : List String × List String :=
  if row_matches row then
    match st.1 with
    | [] => st
    | url :: rest => (rest, if st.2.contains url then st.2 else st.2 ++ [url])
  else st

/-- `parse_repository_page` of src/api/scrape.py (lines 87-119). -/
def api_parse_repository_page (toks : List Token) (base_url : String) : List String :=
  let st := feedTokens toks
  let contract_urls := api_contract_urls st.links base_url
  ((st.tables.flatten).foldl api_filter_step (contract_urls, [])).2

/-- The three extracted fields of a contract detail page. -/
structure DetailFields where
  low_bidder : String
  low_bid_amount : String
  awardee : String
deriving DecidableEq, Repr

/-- Same-row cell scan of `scrape_contract_detail` (src/scrape.py lines
175-181), state = (low_bid_amount, low_bidder): a cell containing a dollar
sign overwrites the amount; otherwise a cell longer than 10 characters
that is not purely numeric after stripping '.', ',', '$', ' ' overwrites
the bidder (last candidate wins). -/
def sameRowStep (st : String × String) (cell : String) : String × String :=
  if strContains cell "$" then (pyStrip cell, st.2)
  else if cell.length > 10 && !(pyIsDigit (stripMoneyChars cell)) then (st.1, pyStrip cell)
  else st

/-- Next-row cell scan of `scrape_contract_detail` (src/scrape.py lines
184-190), state = (low_bid_amount, low_bidder): a dollar cell fills the
amount only when it is still empty; otherwise a cell longer than 10
characters fills the bidder only when it is still empty (note: no
purely-numeric exclusion here, unlike the same-row scan). -/
def nextRowStep (st : String × String) (cell : String) : String × String :=
  if strContains cell "$" && st.1 == "" then (pyStrip cell, st.2)
  else if cell.length > 10 && st.2 == "" then (st.1, pyStrip cell)
  else st

/-- Fold of `nextRowStep` over the cells of the following row
(src/scrape.py lines 186-190). -/
def nextRowScan (cells : List String) (st : String × String) : String × String :=
  cells.foldl nextRowStep st

/-- Awardee cell scan of `scrape_contract_detail` (src/scrape.py lines
193-196): last long non-numeric cell wins. -/
def awardStep (a : String) (cell : String) : String :=
  if cell.length > 10 && !(pyIsDigit (stripMoneyChars cell)) then pyStrip cell else a

/-- Processing of one row (with an optional following row) inside the
table loop of `scrape_contract_detail` (src/scrape.py lines 169-196). -/
def scrapeRow (row : List String) (next_row : Option (List String)) (st : DetailFields) : DetailFields :=
  let row_text := pyLower (joinSpace row)
  let st1 :=
    if strContains row_text "low bid" || strContains row_text "lowest bid" then
      let p := row.foldl sameRowStep (st.low_bid_amount, st.low_bidder)
      let p2 :=
        match next_row with
        | some nr => nextRowScan nr p
        | none => p
      { st with low_bid_amount := p2.1, low_bidder := p2.2 }
    else st
  if strContains row_text "award" && strContains row_text "awardee" then
    { st1 with awardee := row.foldl awardStep st1.awardee }
  else st1

/-- The `for i, row in enumerate(table)` loop of `scrape_contract_detail`:
each row is processed together with the row at index i+1 when it exists
(`rest.head?`). -/
def scrapeRows : List (List String) → DetailFields → DetailFields
  | [], st => st
  | row :: rest, st => scrapeRows rest (scrapeRow row rest.head? st)

/-- `scrape_contract_detail` (src/scrape.py lines 154-202, identical in
src/api/scrape.py lines 122-159), over the token stream of a detail
document.  Each empty field is replaced by the sentinel via Python `or`. -/
def scrape_contract_detail (toks : List Token) : DetailFields :=
  let st := ((feedTokens toks).tables).foldl (fun acc t => scrapeRows t acc)
    { low_bidder := "", low_bid_amount := "", awardee := "" }
  { low_bidder := pyOr st.low_bidder "Not Found"
  , low_bid_amount := pyOr st.low_bid_amount "Not Found"
  , awardee := pyOr st.awardee "Not Found" }

/-- One output record (src/scrape.py lines 238-243 / 246-251). -/
structure Contract where
  contract_url : String
  low_bidder : String
  low_bid_amount : String
  awardee : String
deriving DecidableEq, Repr

/-- The per-URL loop of `process_repository` (src/scrape.py lines 233-251):
one Contract per URL, in order; a failed fetch yields an error row whose
bidder carries the message and whose other extracted fields are empty.
The network is the oracle `fetch` (see module docstring). -/
def repoResults (fetch : String → Except String (List Token)) (urls : List String) : List Contract :=
  urls.map (fun contract_url =>
    match fetch contract_url with
    | .ok contract_html =>
        let data := scrape_contract_detail contract_html
        { contract_url := contract_url
        , low_bidder := data.low_bidder
        , low_bid_amount := data.low_bid_amount
        , awardee := data.awardee }
    | .error e =>
        { contract_url := contract_url
        , low_bidder := "ERROR: " ++ e
        , low_bid_amount := ""
        , awardee := "" })

/-- Modelled from the spec: "standard comma-separated escaping (quote
fields containing commas/quotes/newlines)" — Python's stdlib `csv` module
(QUOTE_MINIMAL), which is not part of this repository.  A field is quoted
iff it contains the delimiter, the quote char, or a line-terminator
character; quotes are doubled inside a quoted field. -/
def needsQuote (f : String) : Bool :=
  strContains f "," || strContains f "\"" || strContains f "\r" || strContains f "\n"

/-- Double every quote character (the csv module's quote escaping). -/
def dupQuotes : List Char → List Char
  | [] => []
  | c :: rest => if c == '"' then '"' :: '"' :: dupQuotes rest else c :: dupQuotes rest

/-- Serialize one CSV field (QUOTE_MINIMAL). -/
def escFieldChars (f : String) : List Char :=
  if needsQuote f then '"' :: (dupQuotes f.toList ++ ['"']) else f.toList

/-- Serialize one CSV record: comma-joined fields plus the csv module's
default line terminator "\r\n". -/
def csvRowChars : List String → List Char
  | [] => ['\r', '\n']
  | [f] => escFieldChars f ++ ['\r', '\n']
  | f :: fs => escFieldChars f ++ ',' :: csvRowChars fs

/-- The DictWriter field order (src/scrape.py line 255). -/
def csvHeaderFields : List String :=
  ["contract_url", "low_bidder", "low_bid_amount", "awardee"]

/-- The four field values of a Contract in DictWriter order. -/
def contractFields (c : Contract) : List String :=
  [c.contract_url, c.low_bidder, c.low_bid_amount, c.awardee]

/-- CSV serialization of the results (src/scrape.py lines 253-259):
header row then one row per Contract. -/
def resultsToCsv (results : List Contract) : String :=
  String.mk (csvRowChars csvHeaderFields ++ (results.map (fun c => csvRowChars (contractFields c))).flatten)

/-- `process_repository` (src/scrape.py lines 205-259): fetch the listing
(wrapping a failure message), parse it, abort when no URL matched,
otherwise scrape every URL and serialize. -/
def process_repository (fetch : String → Except String (List Token)) (repo_url : String) : Except String String :=
  match fetch repo_url with
  | .error e => .error ("Failed to fetch repository page: " ++ e)
  | .ok html =>
    let contract_urls := parse_repository_page html repo_url
    if contract_urls.isEmpty then
      .error "No matching contracts found. Please check the URL and filter criteria."
    else
      .ok (resultsToCsv (repoResults fetch contract_urls))

/-- Count occurrences of a character in a string (Python `str.count` for a
single-character needle). -/
def countChar (s : String) (c : Char) : Nat :=
  (s.toList.filter (fun x => x == c)).length

/-- The success message of the HTTP handler (src/scrape.py line 300):
`f'Successfully scraped {csv_content.count(chr(10)) - 1} contracts'`. -/
def successMessage (csv_content : String) : String :=
  "Successfully scraped " ++ toString (countChar csv_content '\n' - 1) ++ " contracts"

/-- The next-row cell scan as the spec words it (§4.4 / claim C4): the
SAME per-cell tests as the matching row — a '$' cell is an amount
candidate, a cell of length > 10 that is not purely numeric after
stripping '.', ',', '$', ' ' is a bidder candidate — but a candidate only
fills a field that is still empty, first candidate wins. -/
def nextRowStepSpec (st : String × String) (cell : String) : String × String :=
  if strContains cell "$" then
    (if st.1 == "" then (pyStrip cell, st.2) else st)
  else if cell.length > 10 && !(pyIsDigit (stripMoneyChars cell)) && st.2 == "" then
    (st.1, pyStrip cell)
  else st

/-- `scrapeRow` with the spec's next-row scan in place of the code's
(everything else identical), for comparison with the source behaviour. -/
def scrapeRowSpec (row : List String) (next_row : Option (List String)) (st : DetailFields) : DetailFields :=
  let row_text := pyLower (joinSpace row)
  let st1 :=
    if strContains row_text "low bid" || strContains row_text "lowest bid" then
      let p := row.foldl sameRowStep (st.low_bid_amount, st.low_bidder)
      let p2 :=
        match next_row with
        | some nr => nr.foldl nextRowStepSpec p
        | none => p
      { st with low_bid_amount := p2.1, low_bidder := p2.2 }
    else st
  if strContains row_text "award" && strContains row_text "awardee" then
    { st1 with awardee := row.foldl awardStep st1.awardee }
  else st1

/-- Row loop of the spec-variant detail extractor. -/
def scrapeRowsSpec : List (List String) → DetailFields → DetailFields
  | [], st => st
  | row :: rest, st => scrapeRowsSpec rest (scrapeRowSpec row rest.head? st)

/-- Detail extractor as claim C4 describes it (spec next-row tests);
compared against `scrape_contract_detail` from the source. -/
def scrape_contract_detail_spec (toks : List Token) : DetailFields :=
  let st := ((feedTokens toks).tables).foldl (fun acc t => scrapeRowsSpec t acc)
    { low_bidder := "", low_bid_amount := "", awardee := "" }
  { low_bidder := pyOr st.low_bidder "Not Found"
  , low_bid_amount := pyOr st.low_bid_amount "Not Found"
  , awardee := pyOr st.awardee "Not Found" }

/-!
A CSV parser, modelled from the spec

"Serialization round-trip: parsing the emitted tabular output recovers
exactly the same ordered sequence of Contract records" (§8) — the parsing
direction is not part of the repository, so a standard comma-separated
parser (quoted fields, doubled quotes, "\r\n" record terminator) is
modelled here as a character-level state machine.
-/

inductive CsvMode where
  | unq
  | quoted
  | quoteClose
  | afterCR
deriving DecidableEq, Repr

structure CsvState where
  rows : List (List String)
  cur : List String
  field : List Char
  mode : CsvMode
deriving DecidableEq, Repr

/-- Close the current field. -/
def csvPushField (st : CsvState) : CsvState :=
  { st with cur := st.cur ++ [String.mk st.field], field := [] }

/-- Close the current field and record. -/
def csvPushRow (st : CsvState) : CsvState :=
  { rows := st.rows ++ [st.cur ++ [String.mk st.field]], cur := [], field := [], mode := .unq }

/-- One character of standard CSV parsing. -/
def csvStep (st : CsvState) (c : Char) : CsvState :=
  match st.mode with
  | .unq =>
    if c == '"' && st.field.isEmpty then { st with mode := .quoted }
    else if c == ',' then csvPushField st
    else if c == '\r' then { st with mode := .afterCR }
    else if c == '\n' then csvPushRow st
    else { st with field := st.field ++ [c] }
  | .quoted =>
    if c == '"' then { st with mode := .quoteClose }
    else { st with field := st.field ++ [c] }
  | .quoteClose =>
    if c == '"' then { st with field := st.field ++ [c], mode := .quoted }
    else if c == ',' then { (csvPushField st) with mode := .unq }
    else if c == '\r' then { st with mode := .afterCR }
    else if c == '\n' then csvPushRow st
    else { st with field := st.field ++ [c], mode := .unq }
  | .afterCR =>
    if c == '\n' then csvPushRow st
    else { st with field := st.field ++ ['\r', c], mode := .unq }

def csvInit : CsvState :=
  { rows := [], cur := [], field := [], mode := .unq }

/-- Flush an unterminated trailing record, if any. -/
def csvFinish (st : CsvState) : List (List String) :=
  if st.mode = .unq && st.field.isEmpty && st.cur.isEmpty then st.rows
  else st.rows ++ [st.cur ++ [String.mk st.field]]

/-- Parse a CSV document into its records. -/
def parseCsv (s : String) : List (List String) :=
  csvFinish (s.toList.foldl csvStep csvInit)

/-- Rebuild a Contract from one parsed CSV record. -/
def recordOfFields : List String → Option Contract
  | [u, b, a, w] => some { contract_url := u, low_bidder := b, low_bid_amount := a, awardee := w }
  | _ => none

/-- Parse an emitted report back into its Contract sequence: check the
header record, then rebuild every data record. -/
def parseContracts (s : String) : Option (List Contract) :=
  match parseCsv s with
  | [] => none
  | header :: dataRows =>
      if header = csvHeaderFields then dataRows.mapM recordOfFields else none

/-!
A markup tokenizer, modelled from the spec

The spec's Streaming Markup Tokenizer (§4.1) is realised in the source by
Python's stdlib `html.parser` (not part of this repository): it must
"tolerate malformed/unclosed tags", accept quoted or unquoted attribute
values, and lower-case tag/attribute names.  Modelled here with explicit
fuel; each step consumes at least one character, so fuel = length + 1
always suffices (the termination claim).
-/

inductive AttrMode where
  | between
  | inName
  | afterName
  | value0
  | dq
  | sq
  | unq
deriving DecidableEq, Repr

structure AttrState where
  attrs : List (String × String)
  curName : List Char
  curVal : List Char
  mode : AttrMode

/-- Record the pending attribute (name lower-cased, value verbatim). -/
def pushAttr (st : AttrState) : List (String × String) :=
  st.attrs ++ [(String.mk (st.curName.map Char.toLower), String.mk st.curVal)]

/-- One character of attribute scanning inside a start tag. -/
def attrStep (st : AttrState) (c : Char) : AttrState :=
  match st.mode with
  | .between =>
    if c.isWhitespace || c == '=' then st
    else { st with mode := .inName, curName := [c] }
  | .inName =>
    if c.isWhitespace then { st with mode := .afterName }
    else if c == '=' then { st with mode := .value0 }
    else { st with curName := st.curName ++ [c] }
  | .afterName =>
    if c.isWhitespace then st
    else if c == '=' then { st with mode := .value0 }
    else { attrs := pushAttr st, curName := [c], curVal := [], mode := .inName }
  | .value0 =>
    if c.isWhitespace then st
    else if c == '"' then { st with mode := .dq }
    else if c == '\'' then { st with mode := .sq }
    else { st with mode := .unq, curVal := [c] }
  | .dq =>
    if c == '"' then { attrs := pushAttr st, curName := [], curVal := [], mode := .between }
    else { st with curVal := st.curVal ++ [c] }
  | .sq =>
    if c == '\'' then { attrs := pushAttr st, curName := [], curVal := [], mode := .between }
    else { st with curVal := st.curVal ++ [c] }
  | .unq =>
    if c.isWhitespace then { attrs := pushAttr st, curName := [], curVal := [], mode := .between }
    else { st with curVal := st.curVal ++ [c] }

/-- Scan the attribute section of a start tag. -/
def parseAttrs (l : List Char) : List (String × String) :=
  let st := l.foldl attrStep { attrs := [], curName := [], curVal := [], mode := .between }
  match st.mode with
  | .between => st.attrs
  | _ => pushAttr st

/-- Interpret the characters between a '<' and the matching '>' as a
start or end tag (names lower-cased); unrecognizable content (comments,
doctype, empty tags) produces no event. -/
def parseTagContent (content : List Char) : Option Token :=
  match content with
  | [] => none
  | '/' :: rest =>
      some (Token.endTag (String.mk ((rest.takeWhile Char.isAlphanum).map Char.toLower)))
  | _ =>
      let tagName := content.takeWhile Char.isAlphanum
      if tagName.isEmpty then none
      else some (Token.startTag (String.mk (tagName.map Char.toLower))
                                (parseAttrs (content.drop tagName.length)))

/-- Fuelled tokenizer: text runs up to the next '<'; a '<' with a later
'>' becomes a tag event; a '<' never closed is kept best-effort as text.
Returns `none` only when the fuel runs out. -/
def tokenizeAux : Nat → List Char → Option (List Token)
  | 0, _ => none
  | _ + 1, [] => some []
  | n + 1, c :: rest =>
    if c == '<' then
      let content := rest.takeWhile (fun x => x != '>')
      if content.length == rest.length then
        some [Token.text (String.mk ('<' :: rest))]
      else
        match tokenizeAux n (rest.drop (content.length + 1)) with
        | none => none
        | some ts =>
          match parseTagContent content with
          | some t => some (t :: ts)
          | none => some ts
    else
      let txt := (c :: rest).takeWhile (fun x => x != '<')
      match tokenizeAux n ((c :: rest).drop txt.length) with
      | none => none
      | some ts => some (Token.text (String.mk txt) :: ts)

/-- The total tokenizer (fuel = length + 1 always suffices). -/
def pyTokenize (s : String) : List Token :=
  (tokenizeAux (s.toList.length + 1) s.toList).getD []

/-- End-to-end extraction from raw markup: tokenize, then run the
`SimpleHTMLParser` handlers. -/
def feedString (s : String) : ParserState :=
  feedTokens (pyTokenize s)

/-!
Concrete documents and oracles used by the claim instances
-/

/-- Listing document with one matching row (3 cells, county "cook",
status "active") containing two distinct "LbContractDetail" links. -/
def c1toks : List Token :=
  [.startTag "table" [], .startTag "tr" [],
   .startTag "td" [], .text "Cook", .endTag "td",
   .startTag "td" [], .text "Active", .endTag "td",
   .startTag "td" [],
     .startTag "a" [("href", "LbContractDetail?id=1")], .text "one", .endTag "a",
     .startTag "a" [("href", "LbContractDetail?id=2")], .text "two", .endTag "a",
   .endTag "td",
   .endTag "tr", .endTag "table"]

def c1base : String := "http://example.com/repo/list"

/-- Detail document whose "low bid" row leaves both fields unset and whose
following row holds a single purely numeric cell of length 11. -/
def c4toks : List Token :=
  [.startTag "table" [],
   .startTag "tr" [], .startTag "td" [], .text "Low Bid", .endTag "td", .endTag "tr",
   .startTag "tr" [], .startTag "td" [], .text "12345678901", .endTag "td", .endTag "tr",
   .endTag "table"]

/-- Detail document with exactly the row of the spec's field-extraction
test case. -/
def c5toks : List Token :=
  [.startTag "table" [], .startTag "tr" [],
   .startTag "td" [], .text "Low Bid", .endTag "td",
   .startTag "td" [], .text "Acme Construction Co", .endTag "td",
   .startTag "td" [], .text "$1,234,567.89", .endTag "td",
   .endTag "tr", .endTag "table"]

/-- Listing document carrying a single absolute "LbContractDetail" link. -/
def oneLinkListing : List Token :=
  [.startTag "table" [], .startTag "tr" [], .startTag "td" [],
   .startTag "a" [("href", "http://x/LbContractDetail1")], .text "c1", .endTag "a",
   .endTag "td", .endTag "tr", .endTag "table"]

/-- Detail document whose bidder cell contains an embedded newline. -/
def c7detail : List Token :=
  [.startTag "table" [], .startTag "tr" [],
   .startTag "td" [], .text "Low Bid", .endTag "td",
   .startTag "td" [], .text "Acme", .text "\nBuilders Co", .endTag "td",
   .startTag "td" [], .text "$5", .endTag "td",
   .endTag "tr", .endTag "table"]

/-- Oracle: listing fetch succeeds, the single detail fetch returns the
newline-bearing detail page. -/
def c7fetch : String → Except String (List Token) :=
  fun u =>
    if u == "http://x/repo" then .ok oneLinkListing
    else if u == "http://x/LbContractDetail1" then .ok c7detail
    else .error "nope"

/-- The CSV emitted in the C7 scenario. -/
def c7csv : String :=
  "contract_url,low_bidder,low_bid_amount,awardee\r\nhttp://x/LbContractDetail1,\"Acme\nBuilders Co\",$5,Not Found\r\n"

/-- Oracle: listing fetch succeeds, every detail fetch fails. -/
def c3fetch : String → Except String (List Token) :=
  fun u => if u == "http://x/repo" then .ok oneLinkListing else .error "nope"

/-- Markup closing one non-empty table. -/
def c10toks : List Token :=
  [.startTag "table" [], .startTag "tr" [], .startTag "td" [], .text "x",
   .endTag "td", .endTag "tr", .endTag "table"]

/-- Oracle for the C2 witness: the first URL fails, the second succeeds
with an empty document. -/
def w2fetch : String → Except String (List Token) :=
  fun u => if u == "a" then .error "boom" else .ok []

/-- Oracle whose every fetch succeeds with an empty document. -/
def okFetch : String → Except String (List Token) :=
  fun _ => .ok []

/-- Oracle whose every fetch fails. -/
def failFetch : String → Except String (List Token) :=
  fun _ => .error "boom"

/-!
Shared helper lemmas
-/

theorem mk_toList (s : String) : String.mk s.toList = s := rfl

theorem pyOr_ne_empty (a : String) : pyOr a "Not Found" ≠ "" := by
  unfold pyOr
  split
  · decide
  · next h => simpa using h

/-!
Claim C5 — the spec's field-extraction test case
-/

/-- C5: on a detail page whose table row has cells
["Low Bid", "Acme Construction Co", "$1,234,567.89"],
`scrape_contract_detail` extracts that bidder and that amount. -/
theorem scrape_detail_example :
    (scrape_contract_detail c5toks).low_bidder = "Acme Construction Co" ∧
    (scrape_contract_detail c5toks).low_bid_amount = "$1,234,567.89" := by
  decide


/-!
Claim C10 — the double-append of a closed table
-/

/-- C10: after a non-empty table has been closed (so `tables` ends with it
and `current_table` still holds it), one more EndTag "table" with no new
StartTag "table" in between appends the same table a second time. -/
theorem table_double_append (ts : List Token) (l : List (List (List String)))
    (T : List (List String))
    (htab : (feedTokens ts).tables = l ++ [T])
    (hcur : (feedTokens ts).current_table = T)
    (hne : T ≠ []) :
    (feedTokens (ts ++ [Token.endTag "table"])).tables = l ++ [T, T] := by
  have hstep : feedTokens (ts ++ [Token.endTag "table"]) =
      processToken (feedTokens ts) (Token.endTag "table") := by
    simp [feedTokens, List.foldl_append]
  rw [hstep]
  have hempty : T.isEmpty = false := by
    cases T with
    | nil => exact absurd rfl hne
    | cons x xs => rfl
  simp [processToken, handle_endtag, hcur, hempty, htab, List.append_assoc]

/-- Witness for C10 at a concrete document. -/
theorem table_double_append_witness :
    (feedTokens (c10toks ++ [Token.endTag "table"])).tables = [] ++ [[["x"]], [["x"]]] := by
  exact table_double_append c10toks [] [["x"]] (by decide) (by decide) (by decide)

/-!
Claim C1 counterexample — listing resolver of src/scrape.py
-/

/-- Counterexample to C1 as stated: on a well-formed listing with N = 1
matching row and M = 2 (distinct) "LbContractDetail" links,
`parse_repository_page` (src/scrape.py) returns 2 URLs, not
min(N, M) = 1 — it performs no de-duplication and no row correlation. -/
theorem parse_repository_page_cex :
    (((feedTokens c1toks).tables.flatten).countP (fun r => row_matches r)) = 1 ∧
    (((feedTokens c1toks).links.filter (fun l => strContains l "LbContractDetail")).length) = 2 ∧
    parse_repository_page c1toks c1base =
      ["http://example.com/repo/LbContractDetail?id=1",
       "http://example.com/repo/LbContractDetail?id=2"] ∧
    (parse_repository_page c1toks c1base).length ≠ 1 := by
  refine ⟨by decide, by decide, by decide, by decide⟩

/-!
Claim C3 — no empty fields in output
-/

/-- Counterexample to C3 as stated: when a detail fetch fails, the emitted
row has EMPTY low_bid_amount and awardee fields (not extracted content,
not the sentinel), visible both in the Contract row and in the emitted
CSV, which ends in ",,". -/
theorem no_empty_field_cex :
    repoResults c3fetch ["http://x/LbContractDetail1"] =
      [{ contract_url := "http://x/LbContractDetail1", low_bidder := "ERROR: nope"
       , low_bid_amount := "", awardee := "" }] ∧
    process_repository c3fetch "http://x/repo" =
      .ok "contract_url,low_bidder,low_bid_amount,awardee\r\nhttp://x/LbContractDetail1,ERROR: nope,,\r\n" := by
  refine ⟨by decide, by rfl⟩

/-- C3 amended: every output row produced from a successfully fetched
detail page has all three scraped fields non-empty — each is either
extracted content or the sentinel "Not Found".  (Rows for failed fetches
carry empty amount/awardee fields, per the counterexample.) -/
theorem output_fields_nonempty (fetch : String → Except String (List Token)) (urls : List String) :
    ∀ r ∈ repoResults fetch urls, (∃ toks, fetch r.contract_url = .ok toks) →
      r.low_bidder ≠ "" ∧ r.low_bid_amount ≠ "" ∧ r.awardee ≠ "" := by
  intro r hr hok
  obtain ⟨u, hu, hru⟩ := List.mem_map.mp hr
  obtain ⟨toks, htoks⟩ := hok
  have hurl : r.contract_url = u := by
    cases h : fetch u <;> simp [h] at hru <;> simp [← hru]
  rw [hurl] at htoks
  rw [htoks] at hru
  have hb : r.low_bidder = pyOr ((((feedTokens toks).tables).foldl (fun acc t => scrapeRows t acc)
      { low_bidder := "", low_bid_amount := "", awardee := "" }).low_bidder) "Not Found" := by
    simp [← hru, scrape_contract_detail]
  have ha : r.low_bid_amount = pyOr ((((feedTokens toks).tables).foldl (fun acc t => scrapeRows t acc)
      { low_bidder := "", low_bid_amount := "", awardee := "" }).low_bid_amount) "Not Found" := by
    simp [← hru, scrape_contract_detail]
  have hw : r.awardee = pyOr ((((feedTokens toks).tables).foldl (fun acc t => scrapeRows t acc)
      { low_bidder := "", low_bid_amount := "", awardee := "" }).awardee) "Not Found" := by
    simp [← hru, scrape_contract_detail]
  exact ⟨hb ▸ pyOr_ne_empty _, ha ▸ pyOr_ne_empty _, hw ▸ pyOr_ne_empty _⟩

/-- Witness for C3 amended: a successfully fetched empty document yields
the all-sentinel row, whose fields are non-empty. -/
theorem output_fields_nonempty_witness :
    ({ contract_url := "u", low_bidder := "Not Found", low_bid_amount := "Not Found"
     , awardee := "Not Found" } : Contract).low_bidder ≠ "" ∧
    ({ contract_url := "u", low_bidder := "Not Found", low_bid_amount := "Not Found"
     , awardee := "Not Found" } : Contract).low_bid_amount ≠ "" ∧
    ({ contract_url := "u", low_bidder := "Not Found", low_bid_amount := "Not Found"
     , awardee := "Not Found" } : Contract).awardee ≠ "" := by
  exact output_fields_nonempty okFetch ["u"]
    { contract_url := "u", low_bidder := "Not Found", low_bid_amount := "Not Found"
    , awardee := "Not Found" } (by decide) ⟨[], by rfl⟩

/-!
Claim C4 counterexample — next-row scan tests
-/

/-- Counterexample to C4 as stated: the code's next-row bidder test lacks
the purely-numeric exclusion of the same-row test, so an 11-digit
next-row cell becomes the bidder, where the spec's "same per-cell tests"
variant leaves the bidder unset. -/
theorem next_row_tests_cex :
    (scrape_contract_detail c4toks).low_bidder = "12345678901" ∧
    (scrape_contract_detail_spec c4toks).low_bidder = "Not Found" := by
  refine ⟨by decide, by decide⟩

/-!
Claim C6 — listing-stage fail-fast
-/

/-- C6: a transport failure on the listing fetch aborts the whole run with
a descriptive error (no partial output), and a fetched listing resolving
to zero URLs aborts with the explicit "no matching contracts" error. -/
theorem process_repository_listing_failfast (fetch : String → Except String (List Token)) (repo_url : String) :
    (∀ e, fetch repo_url = .error e →
      process_repository fetch repo_url =
        .error ("Failed to fetch repository page: " ++ e)) ∧
    (∀ toks, fetch repo_url = .ok toks → parse_repository_page toks repo_url = [] →
      process_repository fetch repo_url =
        .error "No matching contracts found. Please check the URL and filter criteria.") := by
  constructor
  · intro e he
    simp [process_repository, he]
  · intro toks ht hp
    simp [process_repository, ht, hp]

/-- Witness for C6: a failing listing fetch and an empty listing. -/
theorem process_repository_listing_failfast_witness :
    process_repository failFetch "http://x/repo" =
      .error ("Failed to fetch repository page: " ++ "boom") ∧
    process_repository okFetch "http://x/repo" =
      .error "No matching contracts found. Please check the URL and filter criteria." := by
  constructor
  · exact (process_repository_listing_failfast failFetch "http://x/repo").1 "boom" (by rfl)
  · exact (process_repository_listing_failfast okFetch "http://x/repo").2 [] (by rfl) (by decide)

/-!
Claim C7 — the row count in the success message
-/

set_option maxRecDepth 4096 in
/-- C7 is a code bug: the handler counts newline characters minus one, so
a field containing an embedded newline inflates the count.  Here the
emitted CSV has exactly one data row (header plus one record when
parsed), but the message reports 2 contracts. -/
theorem success_message_miscount :
    process_repository c7fetch "http://x/repo" = .ok c7csv ∧
    (parseCsv c7csv).length = 2 ∧
    parseCsv c7csv =
      [csvHeaderFields,
       ["http://x/LbContractDetail1", "Acme\nBuilders Co", "$5", "Not Found"]] ∧
    successMessage c7csv = "Successfully scraped 2 contracts" := by
  refine ⟨by rfl, by decide, by decide, by rfl⟩

/-!
Claim C4 amended — next-row scan fills only empty fields
-/

/-- C4 amended: the next-row scan never overwrites a same-row finding —
a field already non-empty is returned unchanged — and when it does set
the bidder, the value is a stripped next-row cell of length > 10 (the
code's actual next-row test, which lacks the same-row purely-numeric
exclusion, per the counterexample). -/
theorem nextRowScan_fills_only_empty (cells : List String) (a b : String) :
    (a ≠ "" → (nextRowScan cells (a, b)).1 = a) ∧
    (b ≠ "" → (nextRowScan cells (a, b)).2 = b) ∧
    ((nextRowScan cells (a, b)).2 ≠ b →
      b = "" ∧ ∃ c ∈ cells, (nextRowScan cells (a, b)).2 = pyStrip c ∧ c.length > 10) := by
  induction cells generalizing a b with
  | nil =>
    exact ⟨fun _ => rfl, fun _ => rfl, fun h => absurd rfl h⟩
  | cons c cs ih =>
    have hstep : nextRowScan (c :: cs) (a, b) = nextRowScan cs (nextRowStep (a, b) c) := rfl
    by_cases h1 : (strContains c "$" && a == "") = true
    · have ha : a = "" := eq_of_beq ((Bool.and_eq_true _ _).mp h1).2
      have hrw : nextRowStep (a, b) c = (pyStrip c, b) := by
        simp only [nextRowStep]
        rw [if_pos h1]
      rw [hstep, hrw]
      refine ⟨fun hne => absurd ha hne, fun hb => (ih (pyStrip c) b).2.1 hb, fun hne => ?_⟩
      obtain ⟨hb, c', hc', h2⟩ := (ih (pyStrip c) b).2.2 hne
      exact ⟨hb, c', List.mem_cons_of_mem _ hc', h2⟩
    · by_cases h2 : (c.length > 10 && b == "") = true
      · have hb : b = "" := eq_of_beq ((Bool.and_eq_true _ _).mp h2).2
        have hlen : c.length > 10 := by
          have h := ((Bool.and_eq_true _ _).mp h2).1
          exact of_decide_eq_true h
        have hrw : nextRowStep (a, b) c = (a, pyStrip c) := by
          simp only [nextRowStep]
          rw [if_neg (by simp [h1]), if_pos h2]
        rw [hstep, hrw]
        refine ⟨fun hne => (ih a (pyStrip c)).1 hne, fun hbne => absurd hb hbne, fun hne => ?_⟩
        refine ⟨hb, ?_⟩
        by_cases hpc : (nextRowScan cs (a, pyStrip c)).2 = pyStrip c
        · exact ⟨c, List.mem_cons_self _ _, hpc, hlen⟩
        · obtain ⟨-, c', hc', h3⟩ := (ih a (pyStrip c)).2.2 hpc
          exact ⟨c', List.mem_cons_of_mem _ hc', h3⟩
      · have hrw : nextRowStep (a, b) c = (a, b) := by
          simp only [nextRowStep]
          rw [if_neg (by simp [h1]), if_neg (by simp [h2])]
        rw [hstep, hrw]
        refine ⟨fun hne => (ih a b).1 hne, fun hb => (ih a b).2.1 hb, fun hne => ?_⟩
        obtain ⟨hb, c', hc', h3⟩ := (ih a b).2.2 hne
        exact ⟨hb, c', List.mem_cons_of_mem _ hc', h3⟩

/-- Witness for C4 amended: filled fields survive a next-row scan, and an
empty bidder is filled by a long next-row cell. -/
theorem nextRowScan_fills_only_empty_witness :
    (nextRowScan ["123 Main St, Springfield"] ("$5", "Bob the Builder")).1 = "$5" ∧
    (nextRowScan ["123 Main St, Springfield"] ("$5", "Bob the Builder")).2 = "Bob the Builder" ∧
    ("" = "" ∧ ∃ c ∈ ["123 Main St, Springfield"],
       (nextRowScan ["123 Main St, Springfield"] ("", "")).2 = pyStrip c ∧ c.length > 10) := by
  refine ⟨(nextRowScan_fills_only_empty ["123 Main St, Springfield"] "$5" "Bob the Builder").1 (by decide),
          (nextRowScan_fills_only_empty ["123 Main St, Springfield"] "$5" "Bob the Builder").2.1 (by decide),
          (nextRowScan_fills_only_empty ["123 Main St, Springfield"] "" "").2.2 (by decide)⟩

/-!
Claim C1 amended — the api variant's take law
-/

/-- De-duplication keeps the accumulated URL list duplicate-free. -/
theorem api_links_fold_nodup (base_url : String) (links : List String) :
    ∀ acc : List String, acc.Nodup → (links.foldl (api_link_step base_url) acc).Nodup := by
  induction links with
  | nil => intro acc h; exact h
  | cons l ls ih =>
    intro acc h
    apply ih
    unfold api_link_step
    split
    · dsimp only
      split
      · exact h
      · next hc =>
        refine List.Nodup.append h (List.nodup_singleton _) ?_
        intro v hv hv1
        rw [List.mem_singleton] at hv1
        subst hv1
        exact hc (List.elem_eq_true_of_mem hv)
    · exact h

/-- Correlation loop invariant: with a duplicate-free queue disjoint from
the output accumulator, the loop pops exactly one queue URL per matching
row, so the output is the accumulator followed by the first
(number of matching rows) queue entries. -/
theorem api_filter_fold (rows : List (List String)) :
    ∀ (queue filtered : List String), queue.Nodup → (∀ u ∈ queue, u ∉ filtered) →
      (rows.foldl api_filter_step (queue, filtered)).2 =
        filtered ++ queue.take (rows.countP (fun r => row_matches r)) := by
  induction rows with
  | nil => intro queue filtered _ _; simp
  | cons row rows ih =>
    intro queue filtered hnd hdisj
    by_cases hm : row_matches row = true
    · cases queue with
      | nil =>
        have hstep : api_filter_step ([], filtered) row = ([], filtered) := by
          simp [api_filter_step, hm]
        simp only [List.foldl_cons, hstep]
        rw [ih [] filtered List.nodup_nil (by simp)]
        simp
      | cons u rest =>
        have hnotmem : u ∉ filtered := hdisj u (List.mem_cons_self _ _)
        have hstep : api_filter_step (u :: rest, filtered) row = (rest, filtered ++ [u]) := by
          simp [api_filter_step, hm, hnotmem]
        simp only [List.foldl_cons, hstep]
        rw [ih rest (filtered ++ [u]) (List.Nodup.of_cons hnd) ?_]
        · rw [List.countP_cons, if_pos hm]
          simp [List.take_succ_cons, List.append_assoc]
        · intro v hv
          simp only [List.mem_append, List.mem_singleton]
          rintro (hvf | hvu)
          · exact hdisj v (List.mem_cons_of_mem _ hv) hvf
          · subst hvu
            exact (List.nodup_cons.mp hnd).1 hv
    · have hm2 : row_matches row = false := by simpa using hm
      have hstep : api_filter_step (queue, filtered) row = (queue, filtered) := by
        simp [api_filter_step, hm2]
      simp only [List.foldl_cons, hstep]
      rw [ih queue filtered hnd hdisj]
      rw [List.countP_cons, if_neg (by simp [hm2])]
      simp

/-- C1 amended: the src/api/scrape.py variant returns exactly the first
min(N, D) entries of the de-duplicated resolved "LbContractDetail" link
list, in first-seen order, where N is the number of matching rows and D
the number of distinct resolved URLs — the Nth matching row consumes the
Nth URL.  (The src/scrape.py variant instead returns every resolved
link without de-duplication or row correlation, per the counterexample.) -/
theorem api_parse_repository_page_take (toks : List Token) (base_url : String) :
    api_parse_repository_page toks base_url =
      (api_contract_urls (feedTokens toks).links base_url).take
        (((feedTokens toks).tables.flatten).countP (fun r => row_matches r)) := by
  show (List.foldl api_filter_step
      (api_contract_urls (feedTokens toks).links base_url, []) (feedTokens toks).tables.flatten).2 = _
  rw [api_filter_fold ((feedTokens toks).tables.flatten)
      (api_contract_urls (feedTokens toks).links base_url) []
      (api_links_fold_nodup base_url _ [] List.nodup_nil) (by simp)]
  simp

/-!
Claim C9 — tokenizer termination on arbitrary markup
-/

/-- Each tokenizer step consumes at least one character, so fuel strictly
above the remaining length never runs out. -/
theorem tokenizeAux_isSome : ∀ (n : Nat) (cs : List Char), cs.length < n →
    (tokenizeAux n cs).isSome = true := by
  intro n
  induction n with
  | zero => intro cs h; exact absurd h (Nat.not_lt_zero _)
  | succ n ih =>
    intro cs h
    cases cs with
    | nil => rfl
    | cons c rest =>
      have hlt : rest.length < n := by
        simp only [List.length_cons] at h
        omega
      by_cases hc : (c == '<') = true
      · simp only [tokenizeAux, if_pos hc]
        by_cases hlen : ((rest.takeWhile (fun x => x != '>')).length == rest.length) = true
        · rw [if_pos hlen]
          rfl
        · rw [if_neg hlen]
          have hrec : (tokenizeAux n (rest.drop ((rest.takeWhile (fun x => x != '>')).length + 1))).isSome = true := by
            apply ih
            have hd : (rest.drop ((rest.takeWhile (fun x => x != '>')).length + 1)).length ≤ rest.length := by
              rw [List.length_drop]
              omega
            omega
          obtain ⟨ts, hts⟩ := Option.isSome_iff_exists.mp hrec
          rw [hts]
          cases parseTagContent (rest.takeWhile (fun x => x != '>')) <;> rfl
      · simp only [tokenizeAux, if_neg hc]
        have hne : (c != '<') = true := by
          simpa using hc
        have htxt : ((c :: rest).takeWhile (fun x => x != '<')).length ≥ 1 := by
          rw [List.takeWhile_cons, if_pos hne]
          simp
        have hrec : (tokenizeAux n ((c :: rest).drop ((c :: rest).takeWhile (fun x => x != '<')).length)).isSome = true := by
          apply ih
          rw [List.length_drop]
          simp only [List.length_cons]
          omega
        obtain ⟨ts, hts⟩ := Option.isSome_iff_exists.mp hrec
        rw [hts]
        rfl

/-- C9: on every markup string — including malformed markup with unclosed
tags and mismatched nesting — the tokenizer terminates with a token
sequence (fuel length+1 suffices), and the table/link extractor produces
its result from exactly that sequence; no exception path exists. -/
theorem tokenizer_terminates (s : String) :
    ∃ toks, tokenizeAux (s.toList.length + 1) s.toList = some toks ∧
      feedString s = feedTokens toks := by
  have h := tokenizeAux_isSome (s.toList.length + 1) s.toList (Nat.lt_succ_self _)
  obtain ⟨toks, hts⟩ := Option.isSome_iff_exists.mp h
  refine ⟨toks, hts, ?_⟩
  unfold feedString pyTokenize
  rw [hts]
  rfl

/-!
Claim C8 — CSV serialization round-trip
-/
theorem contains_of_infix_single (a : Char) (l : List Char) : isInfixL [a] l = l.contains a := by
  induction l with
  | nil => rfl
  | cons b ls ih =>
    show (isPrefixL [a] (b :: ls) || isInfixL [a] ls) = (b :: ls).contains a
    rw [ih]
    show ((a == b && isPrefixL [] ls) || ls.contains a) = (b :: ls).contains a
    by_cases hab : a = b
    · subst hab
      simp [isPrefixL, List.contains, List.elem]
    · have h1 : (a == b) = false := by simpa using hab
      have h2 : (b == a) = false := by simpa using Ne.symm hab
      simp [isPrefixL, List.contains, List.elem, h1, h2]

theorem not_mem_of_contains_false {l : List Char} {a : Char} (h : l.contains a = false) : a ∉ l := by
  intro hm
  have := List.elem_eq_true_of_mem hm
  rw [show l.contains a = l.elem a from rfl] at h
  rw [this] at h
  exact Bool.true_eq_false.mp h

theorem needsQuote_false_chars {f : String} (h : needsQuote f = false) :
    ∀ c ∈ f.toList, (c == ',') = false ∧ (c == '"') = false ∧ (c == '\r') = false ∧ (c == '\n') = false := by
  intro c hc
  unfold needsQuote at h
  simp only [Bool.or_eq_false_iff] at h
  obtain ⟨⟨⟨h1, h2⟩, h3⟩, h4⟩ := h
  have g1 : f.toList.contains ',' = false := by
    rw [← contains_of_infix_single]
    exact h1
  have g2 : f.toList.contains '"' = false := by
    rw [← contains_of_infix_single]
    exact h2
  have g3 : f.toList.contains '\r' = false := by
    rw [← contains_of_infix_single]
    exact h3
  have g4 : f.toList.contains '\n' = false := by
    rw [← contains_of_infix_single]
    exact h4
  refine ⟨?_, ?_, ?_, ?_⟩ <;> rw [beq_eq_false_iff_ne] <;> intro hh <;> subst hh
  · exact not_mem_of_contains_false g1 hc
  · exact not_mem_of_contains_false g2 hc
  · exact not_mem_of_contains_false g3 hc
  · exact not_mem_of_contains_false g4 hc

theorem csv_unq_run : ∀ (l : List Char) (rows : List (List String)) (cur : List String) (field : List Char),
    (∀ c ∈ l, (c == ',') = false ∧ (c == '"') = false ∧ (c == '\r') = false ∧ (c == '\n') = false) →
    l.foldl csvStep ⟨rows, cur, field, .unq⟩ = ⟨rows, cur, field ++ l, .unq⟩ := by
  intro l
  induction l with
  | nil => intro rows cur field _; simp
  | cons c t ih =>
    intro rows cur field h
    obtain ⟨h1, h2, h3, h4⟩ := h c (List.mem_cons_self _ _)
    have hstep : csvStep ⟨rows, cur, field, .unq⟩ c = ⟨rows, cur, field ++ [c], .unq⟩ := by
      show (if (c == '"' && field.isEmpty) = true then _
            else if (c == ',') = true then _
            else if (c == '\r') = true then _
            else if (c == '\n') = true then _
            else _) = _
      rw [if_neg (by simp [h2]), if_neg (by simp [h1]), if_neg (by simp [h3]), if_neg (by simp [h4])]
    rw [List.foldl_cons, hstep, ih rows cur (field ++ [c]) (fun d hd => h d (List.mem_cons_of_mem _ hd))]
    simp

theorem csv_quoted_run : ∀ (l : List Char) (rows : List (List String)) (cur : List String) (field : List Char),
    (dupQuotes l).foldl csvStep ⟨rows, cur, field, .quoted⟩ = ⟨rows, cur, field ++ l, .quoted⟩ := by
  intro l
  induction l with
  | nil => intro rows cur field; simp [dupQuotes]
  | cons c t ih =>
    intro rows cur field
    by_cases hc : (c == '"') = true
    · have hceq : c = '"' := eq_of_beq hc
      subst hceq
      have hd : dupQuotes ('"' :: t) = '"' :: '"' :: dupQuotes t := by
        simp [dupQuotes]
      rw [hd, List.foldl_cons, List.foldl_cons]
      have s1 : csvStep ⟨rows, cur, field, .quoted⟩ '"' = ⟨rows, cur, field, .quoteClose⟩ := rfl
      have s2 : csvStep ⟨rows, cur, field, .quoteClose⟩ '"' = ⟨rows, cur, field ++ ['"'], .quoted⟩ := rfl
      rw [s1, s2, ih rows cur (field ++ ['"'])]
      simp
    · have hd : dupQuotes (c :: t) = c :: dupQuotes t := by
        simp [dupQuotes, hc]
      rw [hd, List.foldl_cons]
      have s1 : csvStep ⟨rows, cur, field, .quoted⟩ c = ⟨rows, cur, field ++ [c], .quoted⟩ := by
        simp only [csvStep]
        rw [if_neg (by simp [hc])]
      rw [s1, ih rows cur (field ++ [c])]
      simp

theorem csv_field_comma (f : String) (rows : List (List String)) (cur : List String) (rest : List Char) :
    (escFieldChars f ++ ',' :: rest).foldl csvStep ⟨rows, cur, [], .unq⟩ =
      rest.foldl csvStep ⟨rows, cur ++ [f], [], .unq⟩ := by
  by_cases hq : needsQuote f = true
  · have he : escFieldChars f ++ ',' :: rest =
        '"' :: (dupQuotes f.toList ++ ('"' :: ',' :: rest)) := by
      simp [escFieldChars, hq]
    rw [he, List.foldl_cons]
    have s0 : csvStep ⟨rows, cur, [], .unq⟩ '"' = ⟨rows, cur, [], .quoted⟩ := rfl
    rw [s0, List.foldl_append, csv_quoted_run, List.foldl_cons]
    have s1 : csvStep ⟨rows, cur, ([] : List Char) ++ f.toList, .quoted⟩ '"' =
        ⟨rows, cur, ([] : List Char) ++ f.toList, .quoteClose⟩ := rfl
    rw [s1, List.foldl_cons]
    have s2 : csvStep ⟨rows, cur, ([] : List Char) ++ f.toList, .quoteClose⟩ ',' =
        ⟨rows, cur ++ [String.mk (([] : List Char) ++ f.toList)], [], .unq⟩ := rfl
    rw [s2]
    simp [mk_toList]
  · have hq2 : needsQuote f = false := by simpa using hq
    have he : escFieldChars f ++ ',' :: rest = f.toList ++ ',' :: rest := by
      simp [escFieldChars, hq2]
    rw [he, List.foldl_append, csv_unq_run f.toList rows cur [] (needsQuote_false_chars hq2),
        List.foldl_cons]
    have s2 : csvStep ⟨rows, cur, ([] : List Char) ++ f.toList, .unq⟩ ',' =
        ⟨rows, cur ++ [String.mk (([] : List Char) ++ f.toList)], [], .unq⟩ := rfl
    rw [s2]
    simp [mk_toList]

theorem csv_field_crlf (f : String) (rows : List (List String)) (cur : List String) (rest : List Char) :
    (escFieldChars f ++ '\r' :: '\n' :: rest).foldl csvStep ⟨rows, cur, [], .unq⟩ =
      rest.foldl csvStep ⟨rows ++ [cur ++ [f]], [], [], .unq⟩ := by
  by_cases hq : needsQuote f = true
  · have he : escFieldChars f ++ '\r' :: '\n' :: rest =
        '"' :: (dupQuotes f.toList ++ ('"' :: '\r' :: '\n' :: rest)) := by
      simp [escFieldChars, hq]
    rw [he, List.foldl_cons]
    have s0 : csvStep ⟨rows, cur, [], .unq⟩ '"' = ⟨rows, cur, [], .quoted⟩ := rfl
    rw [s0, List.foldl_append, csv_quoted_run, List.foldl_cons]
    have s1 : csvStep ⟨rows, cur, ([] : List Char) ++ f.toList, .quoted⟩ '"' =
        ⟨rows, cur, ([] : List Char) ++ f.toList, .quoteClose⟩ := rfl
    rw [s1, List.foldl_cons]
    have s2 : csvStep ⟨rows, cur, ([] : List Char) ++ f.toList, .quoteClose⟩ '\r' =
        ⟨rows, cur, ([] : List Char) ++ f.toList, .afterCR⟩ := rfl
    rw [s2, List.foldl_cons]
    have s3 : csvStep ⟨rows, cur, ([] : List Char) ++ f.toList, .afterCR⟩ '\n' =
        ⟨rows ++ [cur ++ [String.mk (([] : List Char) ++ f.toList)]], [], [], .unq⟩ := rfl
    rw [s3]
    simp [mk_toList]
  · have hq2 : needsQuote f = false := by simpa using hq
    have he : escFieldChars f ++ '\r' :: '\n' :: rest = f.toList ++ '\r' :: '\n' :: rest := by
      simp [escFieldChars, hq2]
    rw [he, List.foldl_append, csv_unq_run f.toList rows cur [] (needsQuote_false_chars hq2),
        List.foldl_cons]
    have s2 : csvStep ⟨rows, cur, ([] : List Char) ++ f.toList, .unq⟩ '\r' =
        ⟨rows, cur, ([] : List Char) ++ f.toList, .afterCR⟩ := rfl
    rw [s2, List.foldl_cons]
    have s3 : csvStep ⟨rows, cur, ([] : List Char) ++ f.toList, .afterCR⟩ '\n' =
        ⟨rows ++ [cur ++ [String.mk (([] : List Char) ++ f.toList)]], [], [], .unq⟩ := rfl
    rw [s3]
    simp [mk_toList]

theorem csv_row_run : ∀ (fs : List String), fs ≠ [] →
    ∀ (rows : List (List String)) (cur : List String) (rest : List Char),
    (csvRowChars fs ++ rest).foldl csvStep ⟨rows, cur, [], .unq⟩ =
      rest.foldl csvStep ⟨rows ++ [cur ++ fs], [], [], .unq⟩ := by
  intro fs
  induction fs with
  | nil => intro h; exact absurd rfl h
  | cons f fs ih =>
    intro _ rows cur rest
    cases fs with
    | nil =>
      have he : csvRowChars [f] ++ rest = escFieldChars f ++ '\r' :: '\n' :: rest := by
        simp [csvRowChars]
      rw [he, csv_field_crlf]
    | cons f2 t =>
      have he : csvRowChars (f :: f2 :: t) ++ rest =
          escFieldChars f ++ ',' :: (csvRowChars (f2 :: t) ++ rest) := by
        simp [csvRowChars]
      rw [he, csv_field_comma, ih (by simp) rows (cur ++ [f]) rest]
      simp

theorem csv_rows_run : ∀ (rss : List (List String)), (∀ r ∈ rss, r ≠ []) →
    ∀ rows : List (List String),
    ((rss.map csvRowChars).flatten).foldl csvStep ⟨rows, [], [], .unq⟩ = ⟨rows ++ rss, [], [], .unq⟩ := by
  intro rss
  induction rss with
  | nil => intro _ rows; simp
  | cons r t ih =>
    intro h rows
    have he : ((r :: t).map csvRowChars).flatten = csvRowChars r ++ (t.map csvRowChars).flatten := by
      simp
    rw [he, csv_row_run r (h r (List.mem_cons_self _ _)) rows [] _]
    simp only [List.nil_append]
    rw [ih (fun x hx => h x (List.mem_cons_of_mem _ hx)) (rows ++ [r])]
    simp

theorem recordOfFields_mapM (results : List Contract) :
    (results.map contractFields).mapM recordOfFields = some results := by
  induction results with
  | nil => rfl
  | cons c t ih =>
    rw [List.map_cons, List.mapM_cons]
    have h1 : recordOfFields (contractFields c) = some c := rfl
    rw [h1, ih]
    rfl

/-- Parsing the emitted CSV yields the header record followed by exactly
one record per Contract, in order. -/
theorem parseCsv_resultsToCsv (results : List Contract) :
    parseCsv (resultsToCsv results) = csvHeaderFields :: results.map contractFields := by
  have hmapmap : results.map (fun c => csvRowChars (contractFields c)) =
      (results.map contractFields).map csvRowChars := by
    rw [List.map_map]
    rfl
  unfold parseCsv resultsToCsv
  rw [show (String.mk (csvRowChars csvHeaderFields ++
        (results.map (fun c => csvRowChars (contractFields c))).flatten)).toList =
      csvRowChars csvHeaderFields ++
        (results.map (fun c => csvRowChars (contractFields c))).flatten from rfl]
  rw [show csvInit = (⟨[], [], [], .unq⟩ : CsvState) from rfl]
  rw [csv_row_run csvHeaderFields (by decide) [] [] _]
  rw [hmapmap]
  rw [csv_rows_run (results.map contractFields) ?_ _]
  · simp [csvFinish]
  · intro r hr
    obtain ⟨c, -, rfl⟩ := List.mem_map.mp hr
    simp [contractFields]

/-- C8: parsing the CSV emitted by `process_repository` recovers exactly
the ordered Contract sequence that produced it, for every record list —
including fields containing commas, quotes, and newlines. -/
theorem csv_roundtrip (results : List Contract) :
    parseContracts (resultsToCsv results) = some results := by
  unfold parseContracts
  rw [parseCsv_resultsToCsv]
  show (if csvHeaderFields = csvHeaderFields
        then (results.map contractFields).mapM recordOfFields else none) = some results
  rw [if_pos rfl]
  exact recordOfFields_mapM results

/-!
Claim C2 — per-URL error isolation
-/

/-- C2: the per-URL loop of `process_repository` emits exactly one output
row per resolved URL, in resolution order; a URL whose fetch fails does
not abort the batch but yields a row whose bidder is "ERROR: "-prefixed
and whose amount and awardee fields are empty; a URL whose fetch succeeds
yields the normally scraped row, independent of every other URL; and when
the listing stage succeeds, `process_repository` emits exactly the CSV of
these rows, which parses back to the header record plus one data record
per URL. -/
theorem repoResults_isolation (fetch : String → Except String (List Token)) (urls : List String) :
    (repoResults fetch urls).length = urls.length ∧
    (∀ (i : Nat) (u : String), urls[i]? = some u →
      (∀ e, fetch u = .error e →
        (repoResults fetch urls)[i]? =
          some { contract_url := u, low_bidder := "ERROR: " ++ e
               , low_bid_amount := "", awardee := "" }) ∧
      (∀ toks, fetch u = .ok toks →
        (repoResults fetch urls)[i]? =
          some { contract_url := u
               , low_bidder := (scrape_contract_detail toks).low_bidder
               , low_bid_amount := (scrape_contract_detail toks).low_bid_amount
               , awardee := (scrape_contract_detail toks).awardee })) ∧
    (∀ repo_url toks, fetch repo_url = .ok toks →
      parse_repository_page toks repo_url ≠ [] →
      process_repository fetch repo_url =
        .ok (resultsToCsv (repoResults fetch (parse_repository_page toks repo_url))) ∧
      parseCsv (resultsToCsv (repoResults fetch (parse_repository_page toks repo_url))) =
        csvHeaderFields ::
          (repoResults fetch (parse_repository_page toks repo_url)).map contractFields) := by
  refine ⟨by simp [repoResults], ?_, ?_⟩
  · intro i u hu
    constructor
    · intro e he
      simp [repoResults, List.getElem?_map, hu, he]
    · intro toks ht
      simp [repoResults, List.getElem?_map, hu, ht]
  · intro repo_url toks ht hp
    have hem : (parse_repository_page toks repo_url).isEmpty = false := by
      cases h : parse_repository_page toks repo_url with
      | nil => exact absurd h hp
      | cons x xs => rfl
    exact ⟨by simp [process_repository, ht, hem], parseCsv_resultsToCsv _⟩

/-- Witness for C2: two URLs, the first fails, the second succeeds; and a
full pipeline run whose emitted CSV parses to header plus one record per
URL. -/
theorem repoResults_isolation_witness :
    (repoResults w2fetch ["a", "b"]).length = 2 ∧
    (repoResults w2fetch ["a", "b"])[0]? =
      some { contract_url := "a", low_bidder := "ERROR: boom"
           , low_bid_amount := "", awardee := "" } ∧
    (repoResults w2fetch ["a", "b"])[1]? =
      some { contract_url := "b", low_bidder := "Not Found"
           , low_bid_amount := "Not Found", awardee := "Not Found" } ∧
    process_repository c7fetch "http://x/repo" =
      .ok (resultsToCsv (repoResults c7fetch (parse_repository_page oneLinkListing "http://x/repo"))) ∧
    parseCsv (resultsToCsv (repoResults c7fetch (parse_repository_page oneLinkListing "http://x/repo"))) =
      csvHeaderFields ::
        (repoResults c7fetch (parse_repository_page oneLinkListing "http://x/repo")).map contractFields := by
  obtain ⟨hlen, hidx, -⟩ := repoResults_isolation w2fetch ["a", "b"]
  obtain ⟨hproc, hparse⟩ :=
    (repoResults_isolation c7fetch []).2.2 "http://x/repo" oneLinkListing (by rfl) (by decide)
  refine ⟨hlen, ?_, ?_, hproc, hparse⟩
  · exact (hidx 0 "a" (by decide)).1 "boom" (by rfl)
  · have := (hidx 1 "b" (by decide)).2 [] (by rfl)
    simpa using this
